import Mathlib

/-!
Shallow embedding of the `camelcase` lint rule (`lib/rules/camelcase.js`).

The rule has two parts:
* a text rewriter `removeUnderscore` that turns an underscored identifier
  into camelCase while preserving leading/trailing underscore runs, and
* a classifier (the `Identifier` visitor of `create`) that, given an
  identifier node and the node kinds around it, decides whether to report
  a naming violation, together with a `report` helper that deduplicates
  reports per node.

Strings are modelled by Lean `String`/`List Char`; the JavaScript
`String.prototype.toUpperCase` is modelled per character by `Char.toUpper`
(the identifiers involved are ASCII).
-/

/-- Character test used throughout: is this character an underscore? -/
def isUnderscoreChar (c : Char) : Bool := c == '_'

/-- Model of `privateFlagPrefix`: the text matched by the anchored regex
`/^_+/`, i.e. the maximal run of leading underscores (empty if none). -/
def leadingUnderscores (l : List Char) : List Char :=
  l.takeWhile isUnderscoreChar

/-- Model of `privateFlagSuffix`: the text matched by `/_+$/`, i.e. the
maximal run of trailing underscores (empty if none). -/
def trailingUnderscores (l : List Char) : List Char :=
  (l.reverse.takeWhile isUnderscoreChar).reverse

/-- Model of `text.replace(/^_+|_+$/g, "")` (used both for `targetText` in
`removeUnderscore` and for `name` in the `Identifier` visitor): strip the
maximal leading and trailing underscore runs. -/
def stripUnderscoreEdges (l : List Char) : List Char :=
  ((l.dropWhile isUnderscoreChar).reverse.dropWhile isUnderscoreChar).reverse

/-- Model of the character scan loop of `removeUnderscore` (lines 82-101):
underscores are dropped, a character right after a dropped underscore run is
uppercased, all other characters are copied unchanged.  The `Bool` argument
is the `wasUnderscore` flag. -/
def camelizeCore : Bool → List Char → List Char
  | _, [] => []
  | wasUnderscore, c :: rest =>
    if isUnderscoreChar c then camelizeCore true rest
    else (if wasUnderscore then c.toUpper else c) :: camelizeCore false rest

/-- Model of `removeUnderscore(text)`: preserve the leading and trailing
underscore runs and camelize the stripped middle. -/
def removeUnderscore (text : String) : String :=
  String.mk (leadingUnderscores text.data
    ++ camelizeCore false (stripUnderscoreEdges text.data)
    ++ trailingUnderscores text.data)

/-- Model of `name.toUpperCase()` (ASCII). -/
def toUpperCase (s : String) : String := String.mk (s.data.map Char.toUpper)

/-- Model of `isUnderscored(name)`: the name contains an underscore and is
not equal to its own uppercasing (line 57). -/
def isUnderscored (name : String) : Bool :=
  name.data.contains '_' && name != toUpperCase name

/-- Model of line 146: `node.name.replace(/^_+|_+$/g, "")`. -/
def stripName (s : String) : String := String.mk (stripUnderscoreEdges s.data)

/-- The fields of a visited `Identifier` node and of its surroundings that
the `Identifier` visitor reads.  Node identity comparisons (`===`/`!==`)
are modelled by `Bool` fields, absent sub-nodes (`node.parent.parent`,
`node.parent.local` used as truthiness tests) by an explicit `Bool`; the
string fields whose guard is false carry an irrelevant value, mirroring the
short-circuit evaluation of the JavaScript conditions. -/
structure IdentifierNodeCtx where
  /-- the node's `name` -/
  name : String
  /-- the `type` of `node.parent` -/
  parentType : String
  /-- the `type` of `node.parent.object` (member-expression parents) -/
  parentObjectType : String
  /-- the `name` of `node.parent.object` -/
  parentObjectName : String
  /-- whether `node.parent.parent` exists (truthiness test on line 180) -/
  grandparentExists : Bool
  /-- the `type` of `node.parent.parent` -/
  grandparentType : String
  /-- the `type` of `node.parent.parent.right` (assignment grandparents) -/
  grandparentRightType : String
  /-- the `type` of `node.parent.parent.left` -/
  grandparentLeftType : String
  /-- the `name` of `node.parent.parent.left.property` -/
  grandparentLeftPropertyName : String
  /-- whether `node.parent.key === node` -/
  parentKeyIsNode : Bool
  /-- whether `node.parent.value === node` -/
  parentValueIsNode : Bool
  /-- whether `node.parent.local` exists (truthiness test on line 193) -/
  parentLocalExists : Bool
  /-- the `name` of `node.parent.local` -/
  parentLocalName : String
deriving DecidableEq

/-- Model of `ALLOWED_PARENT_TYPES` (line 46). -/
def ALLOWED_PARENT_TYPES : List String := ["CallExpression", "NewExpression"]

/-- Model of line 147: the effective parent is the grandparent when the
parent is a member expression, the parent itself otherwise. -/
def effectiveParentType (node : IdentifierNodeCtx) : String :=
  if node.parentType == "MemberExpression" then node.grandparentType
  else node.parentType

/-- Model of the option normalization on lines 131-136: any value other
than `"always"` or `"never"` is treated as `"always"`. -/
def normalizeProperties (properties : String) : String :=
  if properties != "always" && properties != "never" then "always" else properties

/-- Model of the `Identifier` visitor (lines 140-201): `true` means the
visitor calls `report node` (a violation), `false` that it returns without
reporting.  `properties` is the already-normalized option value. -/
def classify (properties : String) (node : IdentifierNodeCtx) : Bool :=
  let name := stripName node.name
  if node.parentType == "MemberExpression" then
    if properties == "never" then false
    else if node.parentObjectType == "Identifier"
        && node.parentObjectName == node.name
        && isUnderscored name then true
    else if effectiveParentType node == "AssignmentExpression"
        && isUnderscored name
        && (node.grandparentRightType != "MemberExpression"
            || (node.grandparentLeftType == "MemberExpression"
                && node.grandparentLeftPropertyName == node.name)) then true
    else false
  else if node.parentType == "Property" then
    if properties == "never" then false
    else if node.grandparentExists && node.grandparentType == "ObjectPattern"
        && node.parentKeyIsNode && !node.parentValueIsNode then false
    else if isUnderscored name
        && !(ALLOWED_PARENT_TYPES.contains (effectiveParentType node)) then true
    else false
  else if node.parentType == "ImportSpecifier"
      || node.parentType == "ImportNamespaceSpecifier"
      || node.parentType == "ImportDefaultSpecifier" then
    node.parentLocalExists && node.parentLocalName == node.name && isUnderscored name
  else
    isUnderscored name && !(ALLOWED_PARENT_TYPES.contains (effectiveParentType node))

/-- Model of `report` (lines 114-129) over the `reported` accumulator:
nodes are identified by an index, the state is the list of already-reported
indices; the result is the new state and whether a violation record was
emitted (`context.report` called). -/
def report (reported : List Nat) (node : Nat) : List Nat × Bool :=
  if node ∈ reported then (reported, false) else (reported ++ [node], true)

/-- Run a whole traversal: process the visited (violating) nodes in order
through `report`, starting from the accumulator `reported`, and collect the
nodes for which a violation record was emitted. -/
def runReports (reported : List Nat) : List Nat → List Nat
  | [] => []
  | v :: vs =>
    match report reported v with
    | (reported1, emitted) =>
      if emitted then v :: runReports reported1 vs else runReports reported1 vs

/-- A context all of whose node-kind fields are empty; the concrete
contexts below override the fields the relevant syntax actually has. -/
def baseCtx : IdentifierNodeCtx :=
  { name := "", parentType := "", parentObjectType := "", parentObjectName := "",
    grandparentExists := false, grandparentType := "", grandparentRightType := "",
    grandparentLeftType := "", grandparentLeftPropertyName := "",
    parentKeyIsNode := false, parentValueIsNode := false,
    parentLocalExists := false, parentLocalName := "" }

/-- The key `my_option` in `foo({my_option: 1})`: its parent is the
`Property`, the grandparent the `ObjectExpression` (whose own parent, the
`CallExpression`, is never read by the visitor — so this is also, field for
field, the context of the key in `const cfg = {my_option: 1}`). -/
def objectKeyMyOptionCtx : IdentifierNodeCtx :=
  { baseCtx with
    name := "my_option"
    parentType := "Property"
    grandparentExists := true
    grandparentType := "ObjectExpression"
    parentKeyIsNode := true }

/-- The property `_prop` in `obj._prop = 5`. -/
def memberUnderscorePropAssignCtx : IdentifierNodeCtx :=
  { baseCtx with
    name := "_prop"
    parentType := "MemberExpression"
    parentObjectType := "Identifier"
    parentObjectName := "obj"
    grandparentExists := true
    grandparentType := "AssignmentExpression"
    grandparentRightType := "Literal"
    grandparentLeftType := "MemberExpression"
    grandparentLeftPropertyName := "_prop" }

/-- The property `my_prop` in `obj.my_prop = 5`. -/
def memberAssignMyPropCtx : IdentifierNodeCtx :=
  { baseCtx with
    name := "my_prop"
    parentType := "MemberExpression"
    parentObjectType := "Identifier"
    parentObjectName := "obj"
    grandparentExists := true
    grandparentType := "AssignmentExpression"
    grandparentRightType := "Literal"
    grandparentLeftType := "MemberExpression"
    grandparentLeftPropertyName := "my_prop" }

/-- The property `my_prop` in `x = obj.my_prop` (read access). -/
def memberReadMyPropCtx : IdentifierNodeCtx :=
  { baseCtx with
    name := "my_prop"
    parentType := "MemberExpression"
    parentObjectType := "Identifier"
    parentObjectName := "obj"
    grandparentExists := true
    grandparentType := "AssignmentExpression"
    grandparentRightType := "MemberExpression"
    grandparentLeftType := "Identifier" }

/-- The right-hand property `my_x` in `obj.my_x = other.my_x`: a read
whose name coincides with the left-hand side's property name. -/
def memberRhsSameNameCtx : IdentifierNodeCtx :=
  { baseCtx with
    name := "my_x"
    parentType := "MemberExpression"
    parentObjectType := "Identifier"
    parentObjectName := "other"
    grandparentExists := true
    grandparentType := "AssignmentExpression"
    grandparentRightType := "MemberExpression"
    grandparentLeftType := "MemberExpression"
    grandparentLeftPropertyName := "my_x" }

/-- The identifier `my_field` in the shorthand destructuring pattern
`const {my_field} = obj`: it is at once the key and the value of its
`Property` parent, whose own parent is the `ObjectPattern`. -/
def shorthandMyFieldCtx : IdentifierNodeCtx :=
  { baseCtx with
    name := "my_field"
    parentType := "Property"
    grandparentExists := true
    grandparentType := "ObjectPattern"
    parentKeyIsNode := true
    parentValueIsNode := true }

/-- The key `my_key` in the renaming destructuring pattern
`const {my_key: localName} = obj`: key but not value of its parent. -/
def renamedPatternKeyCtx : IdentifierNodeCtx :=
  { baseCtx with
    name := "my_key"
    parentType := "Property"
    grandparentExists := true
    grandparentType := "ObjectPattern"
    parentKeyIsNode := true }

/-- The key `my_key` in the object literal `{my_key: 1}`. -/
def objectKeyMyKeyCtx : IdentifierNodeCtx :=
  { baseCtx with
    name := "my_key"
    parentType := "Property"
    grandparentExists := true
    grandparentType := "ObjectExpression"
    parentKeyIsNode := true }

/-- The identifier `my_export` in `import { my_export } from "m"`: the
specifier's local binding is this same underscored name. -/
def importMyExportCtx : IdentifierNodeCtx :=
  { baseCtx with
    name := "my_export"
    parentType := "ImportSpecifier"
    parentLocalExists := true
    parentLocalName := "my_export" }

/-- The imported name `my_export` in `import { my_export as myExport }
from "m"`: the local binding is the camelCase `myExport`. -/
def importRenamedImportedCtx : IdentifierNodeCtx :=
  { baseCtx with
    name := "my_export"
    parentType := "ImportSpecifier"
    parentLocalExists := true
    parentLocalName := "myExport" }

/-- The local name `myExport` in `import { my_export as myExport } from
"m"`. -/
def importRenamedLocalCtx : IdentifierNodeCtx :=
  { baseCtx with
    name := "myExport"
    parentType := "ImportSpecifier"
    parentLocalExists := true
    parentLocalName := "myExport" }

/-- A plain variable `my_var` in `var my_var = 1`: its parent is the
`VariableDeclarator`. -/
def plainMyVarCtx : IdentifierNodeCtx :=
  { baseCtx with
    name := "my_var"
    parentType := "VariableDeclarator"
    grandparentExists := true
    grandparentType := "VariableDeclaration" }

/-- A plain constant `MAX_VALUE` in `var MAX_VALUE = 1`. -/
def plainMaxValueCtx : IdentifierNodeCtx :=
  { baseCtx with
    name := "MAX_VALUE"
    parentType := "VariableDeclarator"
    grandparentExists := true
    grandparentType := "VariableDeclaration" }

example : classify "always" objectKeyMyOptionCtx = true := by decide
example : classify "always" memberUnderscorePropAssignCtx = false := by decide
example : classify "always" memberAssignMyPropCtx = true := by decide
example : classify "always" memberReadMyPropCtx = false := by decide
example : classify "always" memberRhsSameNameCtx = true := by decide
example : classify "always" shorthandMyFieldCtx = true := by decide
example : classify "always" renamedPatternKeyCtx = false := by decide
example : classify "never" objectKeyMyKeyCtx = false := by decide
example : classify "never" plainMyVarCtx = true := by decide
example : classify "never" importMyExportCtx = true := by decide
example : classify "always" importMyExportCtx = true := by decide
example : classify "always" importRenamedImportedCtx = false := by decide
example : classify "always" importRenamedLocalCtx = false := by decide
example : classify "always" plainMaxValueCtx = false := by decide
example : runReports [] [7, 7] = [7] := by decide

/-!  Helper lemmas about characters and the rewriter's scan. -/

/-- Uppercasing cannot produce an underscore. -/
theorem toUpper_ne_underscore (c : Char) (h : c ≠ '_') : c.toUpper ≠ '_' := by
  by_cases hc : c.toNat ≥ 97 ∧ c.toNat ≤ 122
  · simp only [Char.toUpper, hc, and_self, if_true]
    obtain ⟨h1, h2⟩ := hc
    generalize c.toNat = n at h1 h2
    interval_cases n <;> decide
  · simp only [Char.toUpper, hc, if_false]
    exact h

/-- The scan loop never outputs an underscore. -/
theorem not_mem_camelizeCore (w : Bool) (l : List Char) : '_' ∉ camelizeCore w l := by
  induction l generalizing w with
  | nil => simp [camelizeCore]
  | cons c rest ih =>
    by_cases hc : isUnderscoreChar c = true
    · simpa only [camelizeCore, hc, if_true] using ih true
    · have hcne : c ≠ '_' := by
        simpa [isUnderscoreChar, beq_iff_eq] using hc
      simp only [camelizeCore, hc, Bool.false_eq_true, if_false, List.mem_cons, not_or]
      refine ⟨?_, ih false⟩
      cases w
      · simp only [Bool.false_eq_true, if_false]
        exact fun he => hcne he.symm
      · simp only [if_true]
        exact fun he => toUpper_ne_underscore c hcne he.symm

/-- On an underscore-free text the scan loop is the identity. -/
theorem camelizeCore_of_no_underscore (l : List Char) (h : '_' ∉ l) :
    camelizeCore false l = l := by
  induction l with
  | nil => rfl
  | cons c rest ih =>
    have hc : c ≠ '_' := fun he => h (he ▸ List.mem_cons_self c rest)
    have hrest : '_' ∉ rest := fun hm => h (List.mem_cons_of_mem c hm)
    have hb : isUnderscoreChar c = false := by
      simp [isUnderscoreChar, beq_iff_eq]
      exact hc
    simp only [camelizeCore, hb, Bool.false_eq_true, if_false, ih hrest]

/-- The scan loop keeps something as soon as some character is not an
underscore. -/
theorem camelizeCore_ne_nil (w : Bool) (l : List Char) (h : ∃ c ∈ l, c ≠ '_') :
    camelizeCore w l ≠ [] := by
  induction l generalizing w with
  | nil =>
    obtain ⟨c, hc, _⟩ := h
    cases hc
  | cons x xs ih =>
    by_cases hx : isUnderscoreChar x = true
    · have hxe : x = '_' := by simpa [isUnderscoreChar, beq_iff_eq] using hx
      simp only [camelizeCore, hx, if_true]
      apply ih true
      obtain ⟨c, hc, hne⟩ := h
      rcases List.mem_cons.mp hc with rfl | hmem
      · exact absurd hxe hne
      · exact ⟨c, hmem, hne⟩
    · simp [camelizeCore, hx]

/-- Dropping a satisfying prefix block: `dropWhile` over an append whose
first part is all satisfying. -/
theorem dropWhile_append_all {p : Char → Bool} (a b : List Char)
    (h : ∀ x ∈ a, p x = true) :
    List.dropWhile p (a ++ b) = List.dropWhile p b := by
  induction a with
  | nil => rfl
  | cons x xs ih =>
    rw [List.cons_append, List.dropWhile_cons, if_pos (h x (List.mem_cons_self x xs))]
    exact ih fun y hy => h y (List.mem_cons_of_mem x hy)

/-- Taking through a satisfying prefix block. -/
theorem takeWhile_append_all {p : Char → Bool} (a b : List Char)
    (h : ∀ x ∈ a, p x = true) :
    List.takeWhile p (a ++ b) = a ++ List.takeWhile p b := by
  induction a with
  | nil => rfl
  | cons x xs ih =>
    rw [List.cons_append, List.takeWhile_cons, if_pos (h x (List.mem_cons_self x xs)),
      ih fun y hy => h y (List.mem_cons_of_mem x hy), List.cons_append]

/-- A non-satisfying element survives `dropWhile`. -/
theorem mem_dropWhile_of_mem {p : Char → Bool} (l : List Char) (c : Char)
    (hm : c ∈ l) (hc : p c = false) : c ∈ List.dropWhile p l := by
  induction l with
  | nil => cases hm
  | cons x xs ih =>
    rw [List.dropWhile_cons]
    by_cases hx : p x = true
    · rw [if_pos hx]
      rcases List.mem_cons.mp hm with rfl | hmem
      · rw [hx] at hc
        cases hc
      · exact ih hmem
    · rw [if_neg hx]
      exact hm

/-- A non-underscore character of the text survives edge stripping. -/
theorem mem_stripUnderscoreEdges (l : List Char) (c : Char) (hm : c ∈ l)
    (hc : c ≠ '_') : c ∈ stripUnderscoreEdges l := by
  have hb : isUnderscoreChar c = false := by
    simp [isUnderscoreChar, beq_iff_eq]
    exact hc
  unfold stripUnderscoreEdges
  rw [List.mem_reverse]
  apply mem_dropWhile_of_mem _ _ _ hb
  rw [List.mem_reverse]
  exact mem_dropWhile_of_mem _ _ hm hb

/-- Edge stripping only keeps characters of the text. -/
theorem mem_of_mem_stripUnderscoreEdges (l : List Char) (c : Char)
    (hm : c ∈ stripUnderscoreEdges l) : c ∈ l := by
  unfold stripUnderscoreEdges at hm
  rw [List.mem_reverse] at hm
  have h1 := List.Sublist.mem hm (List.dropWhile_sublist _)
  rw [List.mem_reverse] at h1
  exact List.Sublist.mem h1 (List.dropWhile_sublist _)

/-- Decomposition of a text of the rewriter's output shape: an underscore
prefix, an underscore-free nonempty core and an underscore suffix are found
back verbatim by the prefix, strip and suffix operations. -/
theorem removeUnderscore_of_fixed_shape (pre mid suf : List Char)
    (hpre : ∀ x ∈ pre, isUnderscoreChar x = true)
    (hsuf : ∀ x ∈ suf, isUnderscoreChar x = true)
    (hmidne : mid ≠ [])
    (hmid : '_' ∉ mid) :
    leadingUnderscores (pre ++ mid ++ suf) = pre ∧
    stripUnderscoreEdges (pre ++ mid ++ suf) = mid ∧
    trailingUnderscores (pre ++ mid ++ suf) = suf := by
  obtain ⟨m, ms, rfl⟩ : ∃ m ms, mid = m :: ms := by
    cases mid with
    | nil => exact absurd rfl hmidne
    | cons m ms => exact ⟨m, ms, rfl⟩
  have pm : isUnderscoreChar m = false := by
    simp only [isUnderscoreChar, beq_eq_false_iff_ne, ne_eq]
    exact fun he => hmid (he ▸ List.mem_cons_self m ms)
  obtain ⟨mr, mrs, hrev⟩ : ∃ mr mrs, (m :: ms).reverse = mr :: mrs := by
    cases hr : (m :: ms).reverse with
    | nil => exact absurd (List.reverse_eq_nil_iff.mp hr) (List.cons_ne_nil m ms)
    | cons mr mrs => exact ⟨mr, mrs, rfl⟩
  have hmr : mr ∈ m :: ms := by
    rw [← List.mem_reverse, hrev]
    exact List.mem_cons_self mr mrs
  have pmr : isUnderscoreChar mr = false := by
    simp only [isUnderscoreChar, beq_eq_false_iff_ne, ne_eq]
    exact fun he => hmid (he ▸ hmr)
  have hsufrev : ∀ x ∈ suf.reverse, isUnderscoreChar x = true := by
    intro x hx
    exact hsuf x (List.mem_reverse.mp hx)
  refine ⟨?_, ?_, ?_⟩
  · unfold leadingUnderscores
    rw [List.append_assoc, takeWhile_append_all pre _ hpre, List.cons_append,
      List.takeWhile_cons, if_neg (by simp [pm]), List.append_nil]
  · unfold stripUnderscoreEdges
    rw [List.append_assoc, dropWhile_append_all pre _ hpre, List.cons_append,
      List.dropWhile_cons, if_neg (by simp [pm]), ← List.cons_append,
      List.reverse_append, hrev, dropWhile_append_all suf.reverse _ hsufrev,
      List.dropWhile_cons, if_neg (by simp [pmr]), ← hrev, List.reverse_reverse]
  · unfold trailingUnderscores
    rw [List.reverse_append, List.reverse_append, hrev, List.cons_append,
      takeWhile_append_all suf.reverse _ hsufrev, List.takeWhile_cons,
      if_neg (by simp [pmr]), List.append_nil, List.reverse_reverse]

example : removeUnderscore "foo_bar" = "fooBar" := by decide
example : removeUnderscore "_foo" = "_foo" := by decide
example : removeUnderscore "__private_name__" = "__privateName__" := by decide
example : removeUnderscore "foo__bar" = "fooBar" := by decide
example : removeUnderscore "FOO_bar" = "FOOBar" := by decide
example : removeUnderscore "_" = "__" := by decide
example : isUnderscored "MAX_VALUE" = false := by decide
example : isUnderscored "my_option" = true := by decide
example : stripName "_prop" = "prop" := by decide

/-!  Claim theorems. -/

/-- C5 counterexample: the rewriter does not map `FOO_bar` to `FOObar`;
the character after the dropped underscore is uppercased. -/
theorem removeUnderscore_FOO_bar_ne : removeUnderscore "FOO_bar" ≠ "FOObar" := by decide

/-- C5 (amended): in the rewriter's left-to-right scan, characters not
following an underscore are copied unchanged (case-preserving) while the
character immediately following a dropped underscore is uppercased, so the
mixed-case input `FOO_bar` produces `FOOBar`. -/
theorem removeUnderscore_FOO_bar : removeUnderscore "FOO_bar" = "FOOBar" := by decide

/-- C7: the rewriter preserves leading and trailing underscore runs
verbatim, drops internal underscores, uppercases the first non-underscore
character after each dropped run and collapses consecutive underscores:
`_foo ↦ _foo`, `foo_bar ↦ fooBar`, `__private_name__ ↦ __privateName__`,
`foo__bar ↦ fooBar`; and the camelized core of the output never contains
an underscore. -/
theorem removeUnderscore_examples :
    removeUnderscore "_foo" = "_foo" ∧
    removeUnderscore "foo_bar" = "fooBar" ∧
    removeUnderscore "__private_name__" = "__privateName__" ∧
    removeUnderscore "foo__bar" = "fooBar" ∧
    ∀ l : List Char, '_' ∉ camelizeCore false (stripUnderscoreEdges l) :=
  ⟨by decide, by decide, by decide, by decide, fun l => not_mem_camelizeCore false _⟩

/-- C10: on any input with at least one non-underscore character the
rewriter is idempotent: its output decomposes into the preserved underscore
prefix, a nonempty underscore-free core and the preserved underscore
suffix, on which a second run changes nothing. -/
theorem removeUnderscore_idempotent (s : String) (h : ∃ c ∈ s.data, c ≠ '_') :
    removeUnderscore (removeUnderscore s) = removeUnderscore s := by
  obtain ⟨c, hcmem, hcne⟩ := h
  have hpre : ∀ x ∈ leadingUnderscores s.data, isUnderscoreChar x = true :=
    fun x hx => List.mem_takeWhile_imp hx
  have hsuf : ∀ x ∈ trailingUnderscores s.data, isUnderscoreChar x = true := by
    intro x hx
    unfold trailingUnderscores at hx
    rw [List.mem_reverse] at hx
    exact List.mem_takeWhile_imp hx
  have hmid : '_' ∉ camelizeCore false (stripUnderscoreEdges s.data) :=
    not_mem_camelizeCore _ _
  have hmidne : camelizeCore false (stripUnderscoreEdges s.data) ≠ [] :=
    camelizeCore_ne_nil _ _ ⟨c, mem_stripUnderscoreEdges _ _ hcmem hcne, hcne⟩
  obtain ⟨hL, hS, hT⟩ := removeUnderscore_of_fixed_shape _ _ _ hpre hsuf hmidne hmid
  calc removeUnderscore (removeUnderscore s)
      = String.mk (leadingUnderscores (removeUnderscore s).data
          ++ camelizeCore false (stripUnderscoreEdges (removeUnderscore s).data)
          ++ trailingUnderscores (removeUnderscore s).data) := rfl
    _ = removeUnderscore s := by
        have hdata : (removeUnderscore s).data
            = leadingUnderscores s.data
              ++ camelizeCore false (stripUnderscoreEdges s.data)
              ++ trailingUnderscores s.data := rfl
        rw [hdata, hL, hS, hT, camelizeCore_of_no_underscore _ hmid]
        rfl

/-- C10 witness: the hypothesis holds for `foo_bar` and the theorem applies
there. -/
theorem removeUnderscore_idempotent_witness :
    (∃ c ∈ ("foo_bar" : String).data, c ≠ '_') ∧
    removeUnderscore (removeUnderscore "foo_bar") = removeUnderscore "foo_bar" :=
  ⟨by decide, removeUnderscore_idempotent "foo_bar" (by decide)⟩

/-- Nodes emitted by a traversal are pairwise distinct and disjoint from
the accumulator it started with. -/
theorem runReports_nodup (vs : List Nat) :
    ∀ reported : List Nat,
      (runReports reported vs).Nodup ∧ ∀ x ∈ runReports reported vs, x ∉ reported := by
  induction vs with
  | nil => exact fun reported => ⟨List.nodup_nil, by simp [runReports]⟩
  | cons v rest ih =>
    intro reported
    by_cases hv : v ∈ reported
    · have hr : runReports reported (v :: rest) = runReports reported rest := by
        simp [runReports, report, hv]
      rw [hr]
      exact ih reported
    · have hr : runReports reported (v :: rest)
          = v :: runReports (reported ++ [v]) rest := by
        simp [runReports, report, hv]
      obtain ⟨htail, hdis⟩ := ih (reported ++ [v])
      rw [hr]
      constructor
      · refine List.nodup_cons.mpr ⟨?_, htail⟩
        intro hvmem
        exact hdis v hvmem (by simp)
      · intro x hx
        rcases List.mem_cons.mp hx with rfl | hxtail
        · exact hv
        · intro hxrep
          exact hdis x hxtail (by simp [hxrep])

/-- C9: within a single traversal a node is recorded as a violation at most
once — the already-reported accumulator blocks duplicates — and in
particular the shorthand `{my_field} = obj`, whose one identifier node is
visited in two roles, yields exactly one report. -/
theorem report_at_most_once :
    (∀ (visits : List Nat) (n : Nat), (runReports [] visits).count n ≤ 1) ∧
    runReports [] [7, 7] = [7] := by
  constructor
  · intro visits n
    have h := (runReports_nodup visits []).1
    exact List.nodup_iff_count_le_one.mp h n
  · decide

/-- A list not containing a character reports `contains` false for it. -/
theorem contains_eq_false_of_not_mem (l : List Char) (c : Char) (h : c ∉ l) :
    l.contains c = false := by
  cases hcl : l.contains c
  · rfl
  · rw [List.contains_eq_any_beq, List.any_eq_true] at hcl
    obtain ⟨x, hx, hbe⟩ := hcl
    exact absurd (beq_iff_eq.mp hbe ▸ hx) h

/-- A map fixing every element of a list is the identity on it. -/
theorem map_eq_self_of_forall (l : List Char) (f : Char → Char)
    (h : ∀ c ∈ l, f c = c) : l.map f = l := by
  induction l with
  | nil => rfl
  | cons c rest ih =>
    rw [List.map_cons, h c (List.mem_cons_self c rest),
      ih fun x hx => h x (List.mem_cons_of_mem c hx)]

/-- Conversely, a map keeping a list unchanged fixes each of its
elements. -/
theorem forall_eq_of_map_eq_self (l : List Char) (f : Char → Char)
    (h : l.map f = l) : ∀ c ∈ l, f c = c := by
  induction l with
  | nil => exact fun c hc => absurd hc (List.not_mem_nil c)
  | cons c rest ih =>
    rw [List.map_cons] at h
    injection h with h1 h2
    intro x hx
    rcases List.mem_cons.mp hx with rfl | hmem
    · exact h1
    · exact ih h2 x hmem

/-- The underscore test fails on the stripped name whenever the full name
has no underscore at all or is all-uppercase. -/
theorem isUnderscored_stripName_eq_false (name : String)
    (h : name.data.contains '_' = false ∨ name = toUpperCase name) :
    isUnderscored (stripName name) = false := by
  rcases h with h | h
  · have hnm : '_' ∉ name.data := by
      intro hm
      have hc : name.data.contains '_' = true := by
        rw [List.contains_eq_any_beq, List.any_eq_true]
        exact ⟨'_', hm, beq_self_eq_true '_'⟩
      rw [hc] at h
      cases h
    have hnsm : '_' ∉ (stripName name).data :=
      fun hm2 => hnm (mem_of_mem_stripUnderscoreEdges name.data '_' hm2)
    unfold isUnderscored
    rw [contains_eq_false_of_not_mem _ _ hnsm, Bool.false_and]
  · have hdata : name.data.map Char.toUpper = name.data :=
      (congrArg String.data h).symm
    have hchar := forall_eq_of_map_eq_self _ _ hdata
    have hstr : (stripName name).data.map Char.toUpper = (stripName name).data :=
      map_eq_self_of_forall _ _ fun c hc =>
        hchar c (mem_of_mem_stripUnderscoreEdges name.data c hc)
    have hup : toUpperCase (stripName name) = stripName name := by
      unfold toUpperCase
      rw [hstr]
    unfold isUnderscored
    rw [hup, bne_self_eq_false, Bool.and_false]

/-- Every reporting branch of the visitor is guarded by the underscore
test on the stripped name: when it fails, nothing is reported. -/
theorem classify_eq_false_of_not_underscored (properties : String)
    (node : IdentifierNodeCtx)
    (h : isUnderscored (stripName node.name) = false) :
    classify properties node = false := by
  simp only [classify, h, Bool.and_false, Bool.false_and, Bool.and_self]
  simp

/-- C6: for every identifier whose name contains no underscore, and for
every identifier whose name equals its own uppercasing (such as
`MAX_VALUE`), no violation is ever reported, in any syntactic context and
under either mode. -/
theorem no_report_without_underscore (properties : String)
    (node : IdentifierNodeCtx)
    (h : node.name.data.contains '_' = false ∨ node.name = toUpperCase node.name) :
    classify properties node = false :=
  classify_eq_false_of_not_underscored properties node
    (isUnderscored_stripName_eq_false node.name h)

/-- C6 witness: the all-uppercase `MAX_VALUE`, as a plain variable, is not
reported under the default mode. -/
theorem no_report_without_underscore_witness :
    plainMaxValueCtx.name = toUpperCase plainMaxValueCtx.name ∧
    classify "always" plainMaxValueCtx = false :=
  ⟨by decide, no_report_without_underscore "always" plainMaxValueCtx (Or.inr (by decide))⟩

/-- C1 counterexample: the key `my_option` of an object literal passed
directly as a call argument, `foo({my_option: 1})`, IS reported — the
claim says it is not.  (`objectKeyMyOptionCtx` is exactly the context the
visitor reads for that key: its parent is the `Property`, its grandparent
the `ObjectExpression`; the enclosing `CallExpression` is never read.) -/
theorem property_key_call_argument_reported :
    classify "always" objectKeyMyOptionCtx = true := by decide

/-- C1 (amended): for an object-literal property key the effective parent
is the `Property` node itself, never a call or construct argument list, so
the exemption cannot fire: whenever the stripped name is underscored and
the destructuring-key skip does not apply, the key is reported — both in
`foo({my_option: 1})` and in `const cfg = {my_option: 1}` (whose visited
contexts coincide field for field). -/
theorem property_key_reported_iff_underscored :
    (∀ node : IdentifierNodeCtx, node.parentType = "Property" →
      (node.grandparentExists && node.grandparentType == "ObjectPattern"
        && node.parentKeyIsNode && !node.parentValueIsNode) = false →
      classify "always" node = isUnderscored (stripName node.name)) ∧
    classify "always" objectKeyMyOptionCtx = true := by
  constructor
  · intro node h1 h2
    simp only [classify, h1, h2]
    simp [effectiveParentType, h1, ALLOWED_PARENT_TYPES]
  · decide

/-- C1 witness: the general part applied to the call-argument key context,
whose skip guard is false. -/
theorem property_key_reported_iff_underscored_witness :
    classify "always" objectKeyMyOptionCtx
      = isUnderscored (stripName objectKeyMyOptionCtx.name) :=
  (property_key_reported_iff_underscored).1 objectKeyMyOptionCtx rfl (by decide)

/-- C2 counterexample: `obj._prop = 5` is NOT reported — the claim says it
is.  The stripped name of `_prop` is `prop`, which is not underscored. -/
theorem member_underscore_prop_assignment_not_reported :
    classify "always" memberUnderscorePropAssignCtx = false := by decide

/-- C2 (amended): for an identifier whose parent is a member access (Mode
= Always, the underscored-object branch not applying), a violation is
reported exactly when the effective parent is an assignment, the stripped
name is underscored, and either the assignment's right-hand side is not a
member expression or its left-hand side is a member expression whose
property name equals the identifier's name.  So `obj.my_prop = 5` is
reported and `x = obj.my_prop` is not; `obj._prop = 5` is not reported
(its stripped name `prop` is not underscored); and the right-hand read in
`obj.my_x = other.my_x` IS reported, because the left-hand property bears
the same name. -/
theorem member_expression_report_characterization :
    (∀ node : IdentifierNodeCtx, node.parentType = "MemberExpression" →
      (node.parentObjectType == "Identifier" && node.parentObjectName == node.name
        && isUnderscored (stripName node.name)) = false →
      classify "always" node =
        (node.grandparentType == "AssignmentExpression"
          && isUnderscored (stripName node.name)
          && (node.grandparentRightType != "MemberExpression"
              || (node.grandparentLeftType == "MemberExpression"
                  && node.grandparentLeftPropertyName == node.name)))) ∧
    classify "always" memberAssignMyPropCtx = true ∧
    classify "always" memberReadMyPropCtx = false ∧
    classify "always" memberUnderscorePropAssignCtx = false ∧
    classify "always" memberRhsSameNameCtx = true := by
  refine ⟨?_, by decide, by decide, by decide, by decide⟩
  intro node h1 h2
  simp only [classify, h1, h2, effectiveParentType]
  simp [Bool.beq_eq_decide_eq, bne]

/-- C2 witness: the characterization applied to the `obj.my_prop = 5`
context. -/
theorem member_expression_report_characterization_witness :
    classify "always" memberAssignMyPropCtx
      = (memberAssignMyPropCtx.grandparentType == "AssignmentExpression"
          && isUnderscored (stripName memberAssignMyPropCtx.name)
          && (memberAssignMyPropCtx.grandparentRightType != "MemberExpression"
              || (memberAssignMyPropCtx.grandparentLeftType == "MemberExpression"
                  && memberAssignMyPropCtx.grandparentLeftPropertyName
                    == memberAssignMyPropCtx.name))) :=
  (member_expression_report_characterization).1 memberAssignMyPropCtx rfl (by decide)

/-- C3 counterexample: the identifier of the shorthand destructuring entry
`const {my_field} = obj` — key and value are the same node — IS reported
in the property branch; the claim says it never is. -/
theorem shorthand_pattern_key_reported :
    classify "always" shorthandMyFieldCtx = true := by decide

/-- C3 (amended): in the property branch the skip applies to the key of a
NON-shorthand destructuring entry — the key and the value are different
nodes, as in `const {my_key: localName} = obj` — which is never reported;
a shorthand entry's identifier, being both key and value, falls through
and is reported when underscored (deduplication then keeps the total to
one report). -/
theorem object_pattern_renaming_key_never_reported :
    (∀ (properties : String) (node : IdentifierNodeCtx),
      node.parentType = "Property" →
      node.grandparentExists = true →
      node.grandparentType = "ObjectPattern" →
      node.parentKeyIsNode = true →
      node.parentValueIsNode = false →
      classify properties node = false) ∧
    classify "always" shorthandMyFieldCtx = true ∧
    classify "always" renamedPatternKeyCtx = false := by
  refine ⟨?_, by decide, by decide⟩
  intro properties node h1 h2 h3 h4 h5
  simp only [classify, h1, h2, h3, h4, h5]
  simp

/-- C3 witness: the general part applied to the renaming-pattern key
`my_key` of `const {my_key: localName} = obj`. -/
theorem object_pattern_renaming_key_never_reported_witness :
    classify "always" renamedPatternKeyCtx = false :=
  (object_pattern_renaming_key_never_reported).1 "always" renamedPatternKeyCtx
    rfl rfl rfl rfl rfl

/-- C4 counterexample: under Mode = Never the import binding of
`import { my_export } from "m"` IS still reported — the claim says import
binding names are exempt. -/
theorem never_mode_import_still_reported :
    classify "never" importMyExportCtx = true := by decide

/-- C4 (amended): under Mode = Never the member-access and object-property
branches return without reporting, so those identifiers are exempt, and a
plain variable such as `my_var` is still reported; but the import branch
never consults the mode, so the import binding `my_export` of
`import { my_export } from "m"` is reported even under Never. -/
theorem never_mode_exemptions :
    (∀ node : IdentifierNodeCtx,
      node.parentType = "MemberExpression" ∨ node.parentType = "Property" →
      classify "never" node = false) ∧
    classify "never" objectKeyMyKeyCtx = false ∧
    classify "never" plainMyVarCtx = true ∧
    classify "never" importMyExportCtx = true := by
  refine ⟨?_, by decide, by decide, by decide⟩
  intro node h1
  rcases h1 with h1 | h1 <;> simp [classify, h1]

/-- C4 witness: the general part applied to the object key `my_key` of
`{my_key: 1}`. -/
theorem never_mode_exemptions_witness :
    classify "never" objectKeyMyKeyCtx = false :=
  (never_mode_exemptions).1 objectKeyMyKeyCtx (Or.inr rfl)

/-- C8: for an identifier whose parent is an import specifier (named,
default or namespace) with a local binding, under Mode = Always a
violation is reported exactly when the local binding name equals the
identifier's own name and the stripped name is underscored; hence
`import { my_export as myExport } from "m"` produces no report while
`import { my_export } from "m"` produces one. -/
theorem import_specifier_report_characterization :
    (∀ node : IdentifierNodeCtx,
      (node.parentType = "ImportSpecifier"
        ∨ node.parentType = "ImportNamespaceSpecifier"
        ∨ node.parentType = "ImportDefaultSpecifier") →
      node.parentLocalExists = true →
      classify "always" node
        = (node.parentLocalName == node.name
            && isUnderscored (stripName node.name))) ∧
    classify "always" importMyExportCtx = true ∧
    classify "always" importRenamedImportedCtx = false ∧
    classify "always" importRenamedLocalCtx = false := by
  refine ⟨?_, by decide, by decide, by decide⟩
  intro node h1 h2
  rcases h1 with h1 | h1 | h1 <;> simp [classify, h1, h2]

/-- C8 witness: the characterization applied to the binding of
`import { my_export } from "m"`. -/
theorem import_specifier_report_characterization_witness :
    classify "always" importMyExportCtx
      = (importMyExportCtx.parentLocalName == importMyExportCtx.name
          && isUnderscored (stripName importMyExportCtx.name)) :=
  (import_specifier_report_characterization).1 importMyExportCtx (Or.inl rfl) rfl
